import Mathlib

/-!
Verification of the design-token matching engine of `eslint-plugin-use-css-token`
(`src/index.ts`).  JavaScript strings are modelled as lists of characters and the
module-global object `tokenColors` as an insertion-ordered association list; the
postcss `Declaration` callback, the `getToken` reverse lookup and the `Property`
visitor are translated function by function.
-/

/-- JavaScript strings, modelled as lists of characters. -/
abbrev Str := List Char

/-- The characters of a Lean string literal; used to write the JS string constants. -/
def chars (s : String) : Str := s.data

/-- Search core of JS `String.prototype.indexOf`: `some i` for the least `i` such
that `sub` is a prefix of `s.drop i`, `none` when `sub` does not occur in `s`. -/
def idxOfAux (sub : Str) : Str → Option Nat
  | [] => if sub.isPrefixOf ([] : Str) then some 0 else none
  | c :: t =>
    if sub.isPrefixOf (c :: t) then some 0
    else (idxOfAux sub t).map (· + 1)

/-- JS `s.includes(sub)`. -/
def includesSub (s sub : Str) : Bool := (idxOfAux sub s).isSome

/-- JS `s.indexOf(sub)`: index of the first occurrence, `-1` when absent. -/
def jsIndexOf (s sub : Str) : Int :=
  match idxOfAux sub s with
  | some i => (i : Int)
  | none => -1

/-- JS `s.indexOf(sub, start)`: search starting at position `start`, clamped into
the string. -/
def jsIndexOfFrom (s sub : Str) (start : Int) : Int :=
  let st := min start.toNat s.length
  match idxOfAux sub (s.drop st) with
  | some i => ((st + i : Nat) : Int)
  | none => -1

/-- JS `s.slice(b, e)`: negative ends count from the end of the string, indices are
clamped, and a crossed range yields the empty string. -/
def jsSlice (s : Str) (b e : Int) : Str :=
  let len : Int := (s.length : Int)
  let nb := if b < 0 then max (len + b) 0 else min b len
  let ne := if e < 0 then max (len + e) 0 else min e len
  (s.take ne.toNat).drop nb.toNat

/-- JS `s.replace(pat, repl)` with a string pattern: replace the first occurrence
of `pat`, and return `s` unchanged when `pat` does not occur. -/
def replaceFirst (pat repl : Str) : Str → Str
  | [] => if pat.isPrefixOf ([] : Str) then repl else []
  | c :: t =>
    if pat.isPrefixOf (c :: t) then repl ++ (c :: t).drop pat.length
    else c :: replaceFirst pat repl t

/-- A parsed style declaration `(prop, value)`, as handed by the style-sheet parser
to the `Declaration` callback. -/
structure Decl where
  prop : Str
  value : Str
deriving DecidableEq

/-- The token registry: the JS object `tokenColors`, given by its insertion-ordered
key/value pairs. -/
abbrev Registry := List (Str × Str)

/-- JS object property write `obj[k] = v`: an existing key keeps its original
position in iteration order and only its value changes; a new key is appended. -/
def setKey (r : Registry) (k v : Str) : Registry :=
  if r.any (fun e => decide (e.1 = k)) then
    r.map (fun e => if e.1 = k then (k, v) else e)
  else r ++ [(k, v)]

/-- JS object property read `obj[k]`: the value of the (first) entry with key `k`. -/
def lookupReg (r : Registry) (k : Str) : Option Str :=
  (r.find? (fun e => decide (e.1 = k))).map (fun e => e.2)

/-- `value.includes('#') || value.includes('rgb(') || value.includes('rgba(')`
(src/index.ts, the `isColor` test of the `Declaration` callback). -/
def isColor (value : Str) : Bool :=
  includesSub value (chars "#") || includesSub value (chars "rgb(") ||
    includesSub value (chars "rgba(")

/-- The admission test `decl.prop.startsWith('--') && isColor`. -/
def admissibleDecl (d : Decl) : Bool :=
  (chars "--").isPrefixOf d.prop && isColor d.value

/-- The registry effect of one `Declaration` callback run:
`if (decl.prop.startsWith('--') && isColor) tokenColors[decl.prop] = decl.value`. -/
def registryStep (r : Registry) (d : Decl) : Registry :=
  if admissibleDecl d then setKey r d.prop d.value else r

/-- The span extraction inside the rewrite branch of the `Declaration` callback:
`node = value.includes('#') ? value.indexOf('#') : value.indexOf('rgb')`,
`end = value.indexOf(')', node) + 1`, `hexOrRgba = value.slice(node, end)`.
Returns `(hexOrRgba, node, end)`. -/
def extractSpan (value : Str) : Str × Int × Int :=
  let node : Int :=
    if includesSub value (chars "#") then jsIndexOf value (chars "#")
    else jsIndexOf value (chars "rgb")
  let e : Int := jsIndexOfFrom value (chars ")") node + 1
  (jsSlice value node e, node, e)

/-- Modelled from the spec (§4.2 step 2), for comparison only: the claimed
extraction whose anchor in the no-`#` case is the position of the substring
`rgb(` — where the source uses `value.indexOf('rgb')`. -/
def extractSpanClaimed (value : Str) : Str × Int × Int :=
  let node : Int :=
    if includesSub value (chars "#") then jsIndexOf value (chars "#")
    else jsIndexOf value (chars "rgb(")
  let e : Int := jsIndexOfFrom value (chars ")") node + 1
  (jsSlice value node e, node, e)

/-- The value rewrite of the `Declaration` callback: `context` is `'#'` or `'rgb'`,
`mod = "color(" + hexOrRgba + ")"`, and the result is
`value.replace(context + hexOrRgba, mod)`; values without a color marker are
returned unchanged. -/
def rewriteValue (value : Str) : Str :=
  if isColor value then
    let context : Str := if includesSub value (chars "#") then chars "#" else chars "rgb"
    let hexOrRgba := (extractSpan value).1
    let mod := chars "color(" ++ hexOrRgba ++ chars ")"
    replaceFirst (context ++ hexOrRgba) mod value
  else value

/-- One full `Declaration` callback run: first the registry write, which captures
the original `decl.value`, then the mutation `decl.value = value.replace(...)`. -/
def processDecl (r : Registry) (d : Decl) : Registry × Decl :=
  (registryStep r d, ⟨d.prop, rewriteValue d.value⟩)

/-- The registry produced by running the callback over a declaration sequence,
starting from registry `r0` — `r0` is the content of the module-global
`tokenColors` when processing starts. -/
def buildFrom (r0 : Registry) (ds : List Decl) : Registry :=
  ds.foldl registryStep r0

/-- Building from the empty registry: the first run after module load
(`let tokenColors = {}`). -/
def build (ds : List Decl) : Registry := buildFrom [] ds

/-- `getToken` of the rule's `create` function:
`Object.keys(tokenColors).find((key) => tokenColors[key] === token)` — the first
key in iteration (insertion) order whose value is strictly equal to `token`. -/
def getToken (r : Registry) (token : Str) : Option Str :=
  (r.find? (fun e => decide (e.2 = token))).map (fun e => e.1)

/-- An AST node as inspected by the `Property` visitor: its key name
(`node.key.name`) and its literal value (`node.value.value`). -/
structure PNode where
  keyName : Str
  litValue : Str
deriving DecidableEq

/-- The diagnostic template:
`Use token '<tokenName>' instead of hard-coded color '<literal>'.` -/
def mkMessage (tok lit : Str) : Str :=
  chars "Use token '" ++ tok ++ chars "' instead of hard-coded color '" ++
    lit ++ chars "'."

/-- The `Property` visitor of `create`: when the node's key name is `color` and
`getToken(value)` is truthy (a non-empty key), report the diagnostic; otherwise
report nothing. -/
def visitProperty (r : Registry) (n : PNode) : Option Str :=
  if n.keyName = chars "color" then
    match getToken r n.litValue with
    | some tok => if tok = [] then none else some (mkMessage tok n.litValue)
    | none => none
  else none

/-- One traversal step threading the state the host framework exposes to the
visitor: the registry and the list of reported diagnostics. -/
def visitFold (st : Registry × List Str) (n : PNode) : Registry × List Str :=
  match visitProperty st.1 n with
  | some m => (st.1, st.2 ++ [m])
  | none => st

/-- Running the visitor over a whole traversal: fold `visitFold` over the visited
nodes, starting from the given registry and no diagnostics. -/
def runVisitor (r : Registry) (ns : List PNode) : Registry × List Str :=
  ns.foldl visitFold (r, [])

/-- `sub` occurs in `s` at index `i`. -/
def occursAt (s sub : Str) (i : Nat) : Prop := sub.isPrefixOf (s.drop i) = true

-- sanity checks on concrete inputs (spec §8 examples)
example : build [⟨chars "--brand", chars "#112233"⟩, ⟨chars "color", chars "#112233"⟩]
    = [(chars "--brand", chars "#112233")] := by decide
example : build [⟨chars "--a", chars "#111"⟩, ⟨chars "--a", chars "#222"⟩]
    = [(chars "--a", chars "#222")] := by decide
example : getToken [(chars "--a", chars "#111")] (chars "#111") = some (chars "--a") := by decide
example : getToken [(chars "--a", chars "#111")] (chars "#222") = none := by decide
example : (extractSpan (chars "1px solid rgba(0,0,0,0.5)")).1 = chars "rgba(0,0,0,0.5)" := by decide
example : (extractSpan (chars "rgbZ rgb(1,1,1)")).2.1 = 0 := by decide
example : (extractSpanClaimed (chars "rgbZ rgb(1,1,1)")).2.1 = 5 := by decide
example : rewriteValue (chars "#123") = chars "color()123" := by decide
example : build [⟨chars "--a", chars "#123"⟩] = [(chars "--a", chars "#123")] := by decide

/-! ### Registry lemmas -/

lemma find?_map_setKey_self (r : Registry) (k v : Str)
    (h : r.any (fun e => decide (e.1 = k)) = true) :
    (r.map (fun e => if e.1 = k then (k, v) else e)).find? (fun e => decide (e.1 = k))
      = some (k, v) := by
  induction r with
  | nil => simp at h
  | cons e t ih =>
    simp only [List.map_cons]
    by_cases hek : e.1 = k
    · rw [if_pos hek]
      exact List.find?_cons_of_pos _ (by simp)
    · rw [if_neg hek]
      have ht : t.any (fun e => decide (e.1 = k)) = true := by
        simpa [List.any_cons, hek] using h
      rw [List.find?_cons_of_neg _ (by simpa using hek)]
      exact ih ht

lemma find?_map_setKey_ne (r : Registry) (k v p : Str) (hpk : p ≠ k) :
    (r.map (fun e => if e.1 = k then (k, v) else e)).find? (fun e => decide (e.1 = p))
      = r.find? (fun e => decide (e.1 = p)) := by
  induction r with
  | nil => rfl
  | cons e t ih =>
    simp only [List.map_cons]
    by_cases hek : e.1 = k
    · rw [if_pos hek]
      rw [List.find?_cons_of_neg _ (by simpa using Ne.symm hpk),
        List.find?_cons_of_neg _ (by rw [hek]; simpa using Ne.symm hpk)]
      exact ih
    · rw [if_neg hek]
      by_cases hep : e.1 = p
      · rw [List.find?_cons_of_pos _ (by simpa using hep),
          List.find?_cons_of_pos _ (by simpa using hep)]
      · rw [List.find?_cons_of_neg _ (by simpa using hep),
          List.find?_cons_of_neg _ (by simpa using hep)]
        exact ih

lemma lookupReg_setKey (r : Registry) (k v p : Str) :
    lookupReg (setKey r k v) p = if p = k then some v else lookupReg r p := by
  unfold setKey lookupReg
  by_cases hany : r.any (fun e => decide (e.1 = k)) = true
  · rw [if_pos hany]
    by_cases hpk : p = k
    · subst hpk
      rw [find?_map_setKey_self r p v hany, if_pos rfl]
      rfl
    · rw [find?_map_setKey_ne r k v p hpk, if_neg hpk]
  · rw [if_neg hany]
    have hnone : r.find? (fun e => decide (e.1 = k)) = none := by
      rw [List.find?_eq_none]
      intro x hx hpx
      exact hany (List.any_eq_true.mpr ⟨x, hx, hpx⟩)
    by_cases hpk : p = k
    · subst hpk
      rw [List.find?_append, hnone, Option.none_or,
        List.find?_cons_of_pos _ (by simp)]
      simp
    · rw [List.find?_append,
        List.find?_cons_of_neg _ (by simpa using Ne.symm hpk),
        List.find?_nil, Option.or_none, if_neg hpk]

lemma buildFrom_append (r0 : Registry) (ds1 ds2 : List Decl) :
    buildFrom r0 (ds1 ++ ds2) = buildFrom (buildFrom r0 ds1) ds2 := by
  simp [buildFrom]

lemma lookupReg_buildFrom (ds : List Decl) (r0 : Registry) (p : Str) :
    lookupReg (buildFrom r0 ds) p =
      ((ds.filter (fun d => admissibleDecl d && decide (d.prop = p))).getLast?).elim
        (lookupReg r0 p) (fun d => some d.value) := by
  induction ds using List.reverseRecOn with
  | nil => simp [buildFrom]
  | append_singleton ds d ih =>
    rw [buildFrom_append, List.filter_append]
    have hstep : buildFrom (buildFrom r0 ds) [d] = registryStep (buildFrom r0 ds) d := rfl
    rw [hstep]
    by_cases hpred : (admissibleDecl d && decide (d.prop = p)) = true
    · have hadm : admissibleDecl d = true := (Bool.and_eq_true_iff.mp hpred).1
      have hprop : d.prop = p := of_decide_eq_true (Bool.and_eq_true_iff.mp hpred).2
      simp only [List.filter_cons, hpred, if_true, List.filter_nil,
        List.getLast?_concat, Option.elim_some]
      rw [registryStep, if_pos hadm, lookupReg_setKey, if_pos hprop.symm]
    · have hpredf : (admissibleDecl d && decide (d.prop = p)) = false :=
        Bool.eq_false_iff.mpr hpred
      simp only [List.filter_cons, hpredf, Bool.false_eq_true, if_false,
        List.filter_nil, List.append_nil]
      rw [← ih]
      cases hadm : admissibleDecl d with
      | false => rw [registryStep, if_neg (by simp [hadm])]
      | true =>
        have hprop : ¬ (d.prop = p) := fun hcontr => hpred (by simp [hadm, hcontr])
        rw [registryStep, if_pos hadm, lookupReg_setKey,
          if_neg (fun hcontr => hprop hcontr.symm)]

/-- C1: in the registry built over a declaration sequence, every custom-property
name that gets an admissible declaration maps to the value of the last admissible
declaration of that name in the sequence (last-write-wins), whatever registry
content `r0` the processing started from. -/
theorem C1_last_write_wins (r0 : Registry) (ds : List Decl) (d : Decl)
    (hmem : d ∈ ds) (hadm : admissibleDecl d = true) :
    ∃ dl : Decl,
      (ds.filter (fun d2 => admissibleDecl d2 && decide (d2.prop = d.prop))).getLast?
        = some dl ∧
      admissibleDecl dl = true ∧ dl.prop = d.prop ∧
      lookupReg (buildFrom r0 ds) d.prop = some dl.value := by
  have hdf : d ∈ ds.filter (fun d2 => admissibleDecl d2 && decide (d2.prop = d.prop)) :=
    List.mem_filter.mpr ⟨hmem, by simp [hadm]⟩
  have hne : ds.filter (fun d2 => admissibleDecl d2 && decide (d2.prop = d.prop)) ≠ [] :=
    List.ne_nil_of_mem hdf
  obtain ⟨dl, hdl⟩ := Option.isSome_iff_exists.mp (List.getLast?_isSome.mpr hne)
  have hdlmem : dl ∈ ds.filter (fun d2 => admissibleDecl d2 && decide (d2.prop = d.prop)) :=
    List.mem_of_getLast?_eq_some hdl
  have hdlpred := (List.mem_filter.mp hdlmem).2
  refine ⟨dl, hdl, (Bool.and_eq_true_iff.mp hdlpred).1,
    of_decide_eq_true (Bool.and_eq_true_iff.mp hdlpred).2, ?_⟩
  rw [lookupReg_buildFrom, hdl, Option.elim_some]

/-- Witness for C1 at the spec's Example 2. -/
theorem C1_witness :
    (⟨chars "--a", chars "#111"⟩ : Decl) ∈
        [(⟨chars "--a", chars "#111"⟩ : Decl), ⟨chars "--a", chars "#222"⟩] ∧
    admissibleDecl ⟨chars "--a", chars "#111"⟩ = true ∧
    (∃ dl : Decl,
      (([(⟨chars "--a", chars "#111"⟩ : Decl), ⟨chars "--a", chars "#222"⟩].filter
          (fun d2 => admissibleDecl d2 && decide (d2.prop = chars "--a"))).getLast?
        = some dl ∧
      admissibleDecl dl = true ∧ dl.prop = chars "--a" ∧
      lookupReg (buildFrom []
          [(⟨chars "--a", chars "#111"⟩ : Decl), ⟨chars "--a", chars "#222"⟩])
          (chars "--a") = some dl.value)) :=
  ⟨by decide, by decide,
    C1_last_write_wins [] [⟨chars "--a", chars "#111"⟩, ⟨chars "--a", chars "#222"⟩]
      ⟨chars "--a", chars "#111"⟩ (by decide) (by decide)⟩

/-- C6: a declaration whose property name is not a custom-property name, or whose
value contains no color marker, leaves the registry untouched: removing it from
anywhere in the sequence changes nothing about the built registry. -/
theorem C6_skip_frame (r0 : Registry) (ds1 ds2 : List Decl) (d : Decl)
    (h : admissibleDecl d = false) :
    buildFrom r0 (ds1 ++ d :: ds2) = buildFrom r0 (ds1 ++ ds2) := by
  simp only [buildFrom, List.foldl_append, List.foldl_cons]
  rw [registryStep, if_neg (by simp [h])]

/-- Witness for C6 at the spec's Example 1: the declaration `("color", "#112233")`
is skipped. -/
theorem C6_witness :
    admissibleDecl ⟨chars "color", chars "#112233"⟩ = false ∧
    buildFrom [] ([⟨chars "--brand", chars "#112233"⟩] ++
        (⟨chars "color", chars "#112233"⟩ : Decl) :: []) =
      buildFrom [] ([⟨chars "--brand", chars "#112233"⟩] ++ []) :=
  ⟨by decide,
    C6_skip_frame [] [⟨chars "--brand", chars "#112233"⟩] []
      ⟨chars "color", chars "#112233"⟩ (by decide)⟩

/-! ### Reverse lookup lemmas -/

lemma keysNodup_find?_of_mem (r : Registry) (e : Str × Str)
    (hnd : (r.map Prod.fst).Nodup) (hmem : e ∈ r) :
    r.find? (fun x => decide (x.1 = e.1)) = some e := by
  induction r with
  | nil => cases hmem
  | cons a t ih =>
    rw [List.map_cons, List.nodup_cons] at hnd
    rcases List.mem_cons.mp hmem with heq | hmt
    · subst heq
      exact List.find?_cons_of_pos _ (by simp)
    · have hane : ¬ (a.1 = e.1) := by
        intro hcontr
        apply hnd.1
        rw [hcontr]
        exact List.mem_map_of_mem Prod.fst hmt
      rw [List.find?_cons_of_neg _ (by simpa using hane)]
      exact ih hnd.2 hmt

/-- C2: exact-string reverse lookup.  On a registry with unique keys (the shape
`tokenColors` always has), if some entry's value is character-for-character equal
to `v` then `getToken` returns a key `n` with `registry[n] = v`; if no entry's
value equals `v` it returns none.  No normalization of any kind is involved. -/
theorem C2_find_token_exact (r : Registry) (v : Str)
    (hnd : (r.map Prod.fst).Nodup) :
    ((∃ e ∈ r, e.2 = v) →
      ∃ n, getToken r v = some n ∧ lookupReg r n = some v) ∧
    ((∀ e ∈ r, e.2 ≠ v) → getToken r v = none) := by
  constructor
  · rintro ⟨e0, he0, hev⟩
    have hsome : (r.find? (fun x => decide (x.2 = v))).isSome :=
      List.find?_isSome.mpr ⟨e0, he0, by simpa using hev⟩
    obtain ⟨e1, he1⟩ := Option.isSome_iff_exists.mp hsome
    have he1mem : e1 ∈ r := List.mem_of_find?_eq_some he1
    have he1v : e1.2 = v := by simpa using List.find?_some he1
    refine ⟨e1.1, ?_, ?_⟩
    · rw [getToken, he1]
      rfl
    · rw [lookupReg, keysNodup_find?_of_mem r e1 hnd he1mem, ← he1v]
      rfl
  · intro hall
    have hnone : r.find? (fun x => decide (x.2 = v)) = none :=
      List.find?_eq_none.mpr (fun x hx => by simpa using hall x hx)
    rw [getToken, hnone]
    rfl

/-- Witness for C2 at the spec's Example 3 registry. -/
theorem C2_witness :
    (([(chars "--a", chars "#111")] : Registry).map Prod.fst).Nodup ∧
    (((∃ e ∈ ([(chars "--a", chars "#111")] : Registry), e.2 = chars "#111") →
      ∃ n, getToken [(chars "--a", chars "#111")] (chars "#111") = some n ∧
        lookupReg [(chars "--a", chars "#111")] n = some (chars "#111")) ∧
    ((∀ e ∈ ([(chars "--a", chars "#111")] : Registry), e.2 ≠ chars "#111") →
      getToken [(chars "--a", chars "#111")] (chars "#111") = none)) :=
  ⟨by decide,
    C2_find_token_exact [(chars "--a", chars "#111")] (chars "#111") (by decide)⟩

/-- C7: when several token names map to the same value, `getToken` returns the
one that comes first in the registry's iteration order (its insertion order):
`getToken r v = some n` holds exactly when some entry `(n, v)` splits the
registry so that every earlier entry has a value different from `v`. -/
theorem C7_first_match_tie_break (r : Registry) (v n : Str) :
    getToken r v = some n ↔
      ∃ r1 e r2, r = r1 ++ e :: r2 ∧ e.1 = n ∧ e.2 = v ∧ ∀ x ∈ r1, x.2 ≠ v := by
  induction r with
  | nil =>
    constructor
    · intro h
      simp [getToken] at h
    · rintro ⟨r1, e, r2, heq, -, -, -⟩
      exact absurd heq (by simp)
  | cons a t ih =>
    by_cases hav : a.2 = v
    · have hg : getToken (a :: t) v = some a.1 := by
        rw [getToken, List.find?_cons_of_pos _ (by simpa using hav)]
        rfl
      rw [hg]
      constructor
      · intro h
        have han : a.1 = n := Option.some_inj.mp h
        exact ⟨[], a, t, rfl, han, hav, by simp⟩
      · rintro ⟨r1, e, r2, heq, hen, hev, hr1⟩
        cases r1 with
        | nil =>
          obtain ⟨hae, -⟩ := List.cons_eq_cons.mp heq
          rw [Option.some_inj, hae, hen]
        | cons b r1t =>
          rw [List.cons_append] at heq
          obtain ⟨hab, -⟩ := List.cons_eq_cons.mp heq
          exact absurd hav (hab ▸ hr1 b (List.mem_cons_self b r1t))
    · have hg : getToken (a :: t) v = getToken t v := by
        rw [getToken, List.find?_cons_of_neg _ (by simpa using hav)]
        rfl
      rw [hg, ih]
      constructor
      · rintro ⟨r1, e, r2, rfl, hen, hev, hr1⟩
        refine ⟨a :: r1, e, r2, rfl, hen, hev, ?_⟩
        intro x hx
        rcases List.mem_cons.mp hx with rfl | hx2
        · exact hav
        · exact hr1 x hx2
      · rintro ⟨r1, e, r2, heq, hen, hev, hr1⟩
        cases r1 with
        | nil =>
          obtain ⟨hae, -⟩ := List.cons_eq_cons.mp heq
          exact absurd (hae ▸ hav) (by simpa using hev)
        | cons b r1t =>
          rw [List.cons_append] at heq
          obtain ⟨-, ht⟩ := List.cons_eq_cons.mp heq
          exact ⟨r1t, e, r2, ht, hen, hev,
            fun x hx => hr1 x (List.mem_cons_of_mem _ hx)⟩

/-! ### Traversal lemmas -/

lemma runVisitor_go (r : Registry) (ns : List PNode) (acc : List Str) :
    ns.foldl visitFold (r, acc) = (r, acc ++ ns.filterMap (visitProperty r)) := by
  induction ns generalizing acc with
  | nil => simp
  | cons n t ih =>
    rw [List.foldl_cons, List.filterMap_cons]
    cases hv : visitProperty r n with
    | none =>
      have hstep : visitFold (r, acc) n = (r, acc) := by
        simp [visitFold, hv]
      rw [hstep, ih]
    | some m =>
      have hstep : visitFold (r, acc) n = (r, acc ++ [m]) := by
        simp [visitFold, hv]
      rw [hstep, ih]
      simp

/-- C9: the literal matcher is pure and order-independent: a whole traversal
leaves the registry exactly as it was, and the diagnostics are those each node
yields on its own against that fixed registry, independent of how many other
nodes are visited or in what order the fold encounters them. -/
theorem C9_matcher_pure (r : Registry) (ns : List PNode) :
    runVisitor r ns = (r, ns.filterMap (visitProperty r)) := by
  simpa [runVisitor] using runVisitor_go r ns []

/-- C10: the `Declaration` callback records the declaration's original value in
the registry before the color-mod rewrite mutates `decl.value`: after the
callback the registry holds the verbatim value, the returned declaration holds
the rewritten one, no other key changes, and the stored value is never the
rewritten text when the rewrite changed anything. -/
theorem C10_registry_pre_rewrite (r : Registry) (d : Decl)
    (hadm : admissibleDecl d = true) :
    lookupReg (processDecl r d).1 d.prop = some d.value ∧
    (processDecl r d).2.value = rewriteValue d.value ∧
    (∀ k, k ≠ d.prop → lookupReg (processDecl r d).1 k = lookupReg r k) ∧
    (rewriteValue d.value ≠ d.value →
      lookupReg (processDecl r d).1 d.prop ≠ some (rewriteValue d.value)) := by
  have h1 : lookupReg (processDecl r d).1 d.prop = some d.value := by
    show lookupReg (registryStep r d) d.prop = some d.value
    rw [registryStep, if_pos hadm, lookupReg_setKey, if_pos rfl]
  refine ⟨h1, rfl, ?_, ?_⟩
  · intro k hk
    show lookupReg (registryStep r d) k = lookupReg r k
    rw [registryStep, if_pos hadm, lookupReg_setKey, if_neg hk]
  · intro hne hcontr
    rw [h1] at hcontr
    exact hne (Option.some_inj.mp hcontr).symm

/-- Witness for C10: on `--a: #1` the registry stores the original `#1` while the
declaration's value is rewritten to `color()1`. -/
theorem C10_witness :
    admissibleDecl ⟨chars "--a", chars "#1"⟩ = true ∧
    (lookupReg (processDecl [] ⟨chars "--a", chars "#1"⟩).1 (chars "--a")
        = some (chars "#1") ∧
    (processDecl [] ⟨chars "--a", chars "#1"⟩).2.value = rewriteValue (chars "#1") ∧
    (∀ k, k ≠ chars "--a" →
      lookupReg (processDecl [] ⟨chars "--a", chars "#1"⟩).1 k = lookupReg [] k) ∧
    (rewriteValue (chars "#1") ≠ chars "#1" →
      lookupReg (processDecl [] ⟨chars "--a", chars "#1"⟩).1 (chars "--a")
        ≠ some (rewriteValue (chars "#1")))) :=
  ⟨by decide, C10_registry_pre_rewrite [] ⟨chars "--a", chars "#1"⟩ (by decide)⟩

/-- C4 (the code violates the isolation claim): `tokenColors` is module-global
and never reset, so a second build starts from the first build's registry and
style sheet A's entry `--a: #111` is still visible when querying after building
style sheet B — while a fresh build of B alone would return none. -/
theorem C4_global_registry_leak :
    getToken (buildFrom (build [⟨chars "--a", chars "#111"⟩])
        [⟨chars "--b", chars "#222"⟩]) (chars "#111") = some (chars "--a") ∧
    getToken (build [⟨chars "--b", chars "#222"⟩]) (chars "#111") = none := by
  decide

/-- C5 (the code violates the graceful-failure claim): for `--a: #123`, whose
value has a color marker but no `)`, the declaration is admitted into the
registry rather than skipped, and the extraction yields the empty slice with end
index `0` (`indexOf` returned `-1`) rather than failing with none; the rewrite
then mangles the value to `color()123`. -/
theorem C5_malformed_enters_registry :
    admissibleDecl ⟨chars "--a", chars "#123"⟩ = true ∧
    build [⟨chars "--a", chars "#123"⟩] = [(chars "--a", chars "#123")] ∧
    extractSpan (chars "#123") = ([], 0, 0) ∧
    rewriteValue (chars "#123") = chars "color()123" := by
  decide

/-- C3 counterexample: for the value `rgbZ rgb(1,1,1)`, which contains the color
marker `rgb(` at index 5 and no `#`, the source anchors at `value.indexOf('rgb')
= 0` (the stray `rgb` in `rgbZ`), not at the position of the substring `rgb(` as
claimed, and the extracted span differs from the claimed one. -/
theorem C3_counterexample_anchor :
    isColor (chars "rgbZ rgb(1,1,1)") = true ∧
    (extractSpan (chars "rgbZ rgb(1,1,1)")).2.1 = (0 : Int) ∧
    jsIndexOf (chars "rgbZ rgb(1,1,1)") (chars "rgb(") = (5 : Int) ∧
    (extractSpan (chars "rgbZ rgb(1,1,1)")).1
      ≠ (extractSpanClaimed (chars "rgbZ rgb(1,1,1)")).1 := by
  decide

/-! ### String search lemmas -/

lemma idxOfAux_eq_some_iff (sub s : Str) (i : Nat) :
    idxOfAux sub s = some i ↔
      occursAt s sub i ∧ ∀ j < i, ¬ occursAt s sub j := by
  induction s generalizing i with
  | nil =>
    rw [show idxOfAux sub ([] : Str)
        = (if sub.isPrefixOf ([] : Str) then some 0 else none) from rfl]
    by_cases hp : sub.isPrefixOf ([] : Str) = true
    · rw [if_pos hp]
      constructor
      · intro h
        have h0 : i = 0 := (Option.some_inj.mp h).symm
        subst h0
        exact ⟨by rwa [occursAt, List.drop_nil],
          fun j hj => absurd hj (Nat.not_lt_zero j)⟩
      · rintro ⟨-, hleast⟩
        have h0 : occursAt ([] : Str) sub 0 := by rwa [occursAt, List.drop_nil]
        cases i with
        | zero => rfl
        | succ i0 => exact absurd h0 (hleast 0 (Nat.succ_pos i0))
    · rw [if_neg hp]
      constructor
      · intro h
        exact absurd h (by simp)
      · rintro ⟨hocc, -⟩
        rw [occursAt, List.drop_nil] at hocc
        exact (hp hocc).elim
  | cons c t ih =>
    rw [show idxOfAux sub (c :: t)
        = (if sub.isPrefixOf (c :: t) then some 0 else (idxOfAux sub t).map (· + 1))
        from rfl]
    by_cases hp : sub.isPrefixOf (c :: t) = true
    · rw [if_pos hp]
      constructor
      · intro h
        have h0 : i = 0 := (Option.some_inj.mp h).symm
        subst h0
        exact ⟨by rwa [occursAt, List.drop_zero],
          fun j hj => absurd hj (Nat.not_lt_zero j)⟩
      · rintro ⟨-, hleast⟩
        have h0 : occursAt (c :: t) sub 0 := by rwa [occursAt, List.drop_zero]
        cases i with
        | zero => rfl
        | succ i0 => exact absurd h0 (hleast 0 (Nat.succ_pos i0))
    · rw [if_neg hp]
      constructor
      · intro h
        obtain ⟨i0, hi0, hii⟩ := Option.map_eq_some'.mp h
        subst hii
        obtain ⟨hocc, hleast⟩ := (ih i0).mp hi0
        refine ⟨by rwa [occursAt, List.drop_succ_cons], ?_⟩
        intro j hj
        cases j with
        | zero =>
          rw [occursAt, List.drop_zero]
          exact fun hcontr => hp hcontr
        | succ j0 =>
          rw [occursAt, List.drop_succ_cons]
          exact hleast j0 (Nat.lt_of_succ_lt_succ hj)
      · rintro ⟨hocc, hleast⟩
        cases i with
        | zero =>
          rw [occursAt, List.drop_zero] at hocc
          exact (hp hocc).elim
        | succ i0 =>
          have hocc0 : occursAt t sub i0 := by
            rwa [occursAt, List.drop_succ_cons] at hocc
          have hleast0 : ∀ j < i0, ¬ occursAt t sub j := by
            intro j hj hcontr
            apply hleast (j + 1) (Nat.succ_lt_succ hj)
            rwa [occursAt, List.drop_succ_cons]
          rw [(ih i0).mpr ⟨hocc0, hleast0⟩]
          rfl

lemma idxOfAux_isSome_of_occursAt (sub s : Str) (i : Nat) (h : occursAt s sub i) :
    (idxOfAux sub s).isSome = true := by
  induction s generalizing i with
  | nil =>
    rw [occursAt, List.drop_nil] at h
    simp [idxOfAux, h]
  | cons c t ih =>
    by_cases hp : sub.isPrefixOf (c :: t) = true
    · simp [idxOfAux, hp]
    · cases i with
      | zero =>
        rw [occursAt, List.drop_zero] at h
        exact (hp h).elim
      | succ i0 =>
        rw [occursAt, List.drop_succ_cons] at h
        obtain ⟨a, ha⟩ := Option.isSome_iff_exists.mp (ih i0 h)
        simp [idxOfAux, hp, ha]

lemma occursAt_lt_length {s sub : Str} {i : Nat} (h : occursAt s sub i)
    (hne : sub ≠ []) : i < s.length := by
  by_contra hge
  push_neg at hge
  rw [occursAt, List.drop_eq_nil_of_le hge] at h
  cases sub with
  | nil => exact hne rfl
  | cons c t =>
    simp only [List.isPrefixOf_iff_prefix] at h
    exact absurd (List.prefix_nil.mp h) (by simp)

lemma occursAt_of_isPrefixOf {s sub1 sub2 : Str} {i : Nat}
    (h12 : sub1.isPrefixOf sub2 = true) (h : occursAt s sub2 i) :
    occursAt s sub1 i := by
  simp only [occursAt, List.isPrefixOf_iff_prefix] at h ⊢
  exact (List.isPrefixOf_iff_prefix.mp h12).trans h

lemma occursAt_drop (s sub : Str) (a j : Nat) :
    occursAt (s.drop a) sub j ↔ occursAt s sub (a + j) := by
  unfold occursAt
  rw [List.drop_drop]

lemma jsIndexOf_eq (s sub : Str) (i : Nat) (h : idxOfAux sub s = some i) :
    jsIndexOf s sub = (i : Int) := by
  simp [jsIndexOf, h]

lemma jsSlice_ofNat (s : Str) (b e : Nat) (hb : b ≤ s.length) (he : e ≤ s.length) :
    jsSlice s (b : Int) (e : Int) = (s.take e).drop b := by
  have h1 : min (b : Int) ((s.length : Nat) : Int) = (b : Int) := by
    rw [min_eq_left]
    exact_mod_cast hb
  have h2 : min (e : Int) ((s.length : Nat) : Int) = (e : Int) := by
    rw [min_eq_left]
    exact_mod_cast he
  simp only [jsSlice]
  rw [if_neg (by simp), if_neg (by simp), h1, h2, Int.toNat_ofNat, Int.toNat_ofNat]

lemma extractSpan_node (value : Str) :
    (extractSpan value).2.1 =
      if includesSub value (chars "#") then jsIndexOf value (chars "#")
      else jsIndexOf value (chars "rgb") := rfl

lemma extractSpan_end (value : Str) :
    (extractSpan value).2.2 =
      jsIndexOfFrom value (chars ")") (extractSpan value).2.1 + 1 := rfl

lemma extractSpan_span (value : Str) :
    (extractSpan value).1 =
      jsSlice value (extractSpan value).2.1 (extractSpan value).2.2 := rfl

lemma endSpan_spec (value : Str) (a : Nat) (ha : a < value.length)
    (hb : ∃ b, a ≤ b ∧ occursAt value (chars ")") b) :
    ∃ c, a ≤ c ∧ occursAt value (chars ")") c ∧
      (∀ j, a ≤ j → j < c → ¬ occursAt value (chars ")") j) ∧
      jsIndexOfFrom value (chars ")") (a : Int) = (c : Int) ∧
      jsSlice value (a : Int) ((c : Int) + 1) = (value.take (c + 1)).drop a := by
  obtain ⟨b, hab, hoccb⟩ := hb
  have hoccd : occursAt (value.drop a) (chars ")") (b - a) := by
    rw [occursAt_drop, Nat.add_sub_cancel' hab]
    exact hoccb
  obtain ⟨j, hj⟩ :=
    Option.isSome_iff_exists.mp (idxOfAux_isSome_of_occursAt _ _ _ hoccd)
  obtain ⟨hoccj, hleastj⟩ := (idxOfAux_eq_some_iff _ _ _).mp hj
  have hoccc : occursAt value (chars ")") (a + j) := (occursAt_drop value _ a j).mp hoccj
  have hcl : a + j < value.length := occursAt_lt_length hoccc (by decide)
  have hmin : min ((a : Int)).toNat value.length = a := by
    rw [Int.toNat_ofNat]
    exact Nat.min_eq_left (Nat.le_of_lt ha)
  refine ⟨a + j, Nat.le_add_right a j, hoccc, ?_, ?_, ?_⟩
  · intro k hak hkc hocck
    have hk : occursAt (value.drop a) (chars ")") (k - a) := by
      rw [occursAt_drop, Nat.add_sub_cancel' hak]
      exact hocck
    exact hleastj (k - a) (by omega) hk
  · simp only [jsIndexOfFrom]
    rw [hmin, hj]
  · have hcast : ((a + j : Nat) : Int) + 1 = (((a + j + 1 : Nat)) : Int) := by
      push_cast
      ring
    rw [show (((a + j : Nat)) : Int) + 1 = (((a + j + 1 : Nat)) : Int) from hcast]
    exact jsSlice_ofNat value a (a + j + 1) (Nat.le_of_lt ha) (by omega)

/-- C3 (amended): the extraction anchors at the first `#` when the value contains
`#`, and otherwise at the first occurrence of the substring `rgb` (not of
`rgb(`: the source uses `value.indexOf('rgb')`); whenever a `)` occurs at or
after the anchor, the end index is the position of the first such `)` plus one
and the matched substring is `value[anchor : end]`. -/
theorem C3_anchor_amended (value : Str) (h : isColor value = true) :
    ∃ a : Nat, (extractSpan value).2.1 = (a : Int) ∧
      (includesSub value (chars "#") = true →
        occursAt value (chars "#") a ∧ ∀ j < a, ¬ occursAt value (chars "#") j) ∧
      (includesSub value (chars "#") = false →
        occursAt value (chars "rgb") a ∧ ∀ j < a, ¬ occursAt value (chars "rgb") j) ∧
      ((∃ b, a ≤ b ∧ occursAt value (chars ")") b) →
        ∃ c, a ≤ c ∧ occursAt value (chars ")") c ∧
          (∀ j, a ≤ j → j < c → ¬ occursAt value (chars ")") j) ∧
          (extractSpan value).2.2 = (c : Int) + 1 ∧
          (extractSpan value).1 = (value.take (c + 1)).drop a) := by
  by_cases hH : includesSub value (chars "#") = true
  · have hH2 : (idxOfAux (chars "#") value).isSome = true := hH
    obtain ⟨i, hi⟩ := Option.isSome_iff_exists.mp hH2
    obtain ⟨hiocc, hileast⟩ := (idxOfAux_eq_some_iff _ _ _).mp hi
    have hnode : (extractSpan value).2.1 = (i : Int) := by
      rw [extractSpan_node, if_pos hH, jsIndexOf_eq value (chars "#") i hi]
    refine ⟨i, hnode, fun _ => ⟨hiocc, hileast⟩, ?_, ?_⟩
    · intro hcontr
      rw [hcontr] at hH
      exact Bool.noConfusion hH
    · intro hex
      obtain ⟨c, hac, hoccc, hleastc, hfrom, hslice⟩ :=
        endSpan_spec value i (occursAt_lt_length hiocc (by decide)) hex
      refine ⟨c, hac, hoccc, hleastc, ?_, ?_⟩
      · rw [extractSpan_end, hnode, hfrom]
      · rw [extractSpan_span, extractSpan_end, hnode, hfrom, hslice]
  · have hHf : includesSub value (chars "#") = false := by
      cases hx : includesSub value (chars "#") with
      | false => rfl
      | true => exact absurd hx hH
    have hrgb : ∃ k, occursAt value (chars "rgb") k := by
      simp only [isColor] at h
      rw [hHf] at h
      simp only [Bool.false_or, Bool.or_eq_true_iff] at h
      rcases h with h1 | h1
      · have h2 : (idxOfAux (chars "rgb(") value).isSome = true := h1
        obtain ⟨k, hk⟩ := Option.isSome_iff_exists.mp h2
        exact ⟨k, occursAt_of_isPrefixOf (by decide)
          ((idxOfAux_eq_some_iff _ _ _).mp hk).1⟩
      · have h2 : (idxOfAux (chars "rgba(") value).isSome = true := h1
        obtain ⟨k, hk⟩ := Option.isSome_iff_exists.mp h2
        exact ⟨k, occursAt_of_isPrefixOf (by decide)
          ((idxOfAux_eq_some_iff _ _ _).mp hk).1⟩
    obtain ⟨k, hkocc⟩ := hrgb
    obtain ⟨i, hi⟩ := Option.isSome_iff_exists.mp
      (idxOfAux_isSome_of_occursAt (chars "rgb") value k hkocc)
    obtain ⟨hiocc, hileast⟩ := (idxOfAux_eq_some_iff _ _ _).mp hi
    have hnode : (extractSpan value).2.1 = (i : Int) := by
      rw [extractSpan_node, if_neg (by simp [hHf]),
        jsIndexOf_eq value (chars "rgb") i hi]
    refine ⟨i, hnode, ?_, fun _ => ⟨hiocc, hileast⟩, ?_⟩
    · intro hcontr
      rw [hcontr] at hHf
      exact Bool.noConfusion hHf
    · intro hex
      obtain ⟨c, hac, hoccc, hleastc, hfrom, hslice⟩ :=
        endSpan_spec value i (occursAt_lt_length hiocc (by decide)) hex
      refine ⟨c, hac, hoccc, hleastc, ?_, ?_⟩
      · rw [extractSpan_end, hnode, hfrom]
      · rw [extractSpan_span, extractSpan_end, hnode, hfrom, hslice]

/-- Witness for the amended C3 at the spec's Example 4 value. -/
theorem C3_amended_witness :
    isColor (chars "1px solid rgba(0,0,0,0.5)") = true ∧
    (∃ a : Nat,
      (extractSpan (chars "1px solid rgba(0,0,0,0.5)")).2.1 = (a : Int) ∧
      (includesSub (chars "1px solid rgba(0,0,0,0.5)") (chars "#") = true →
        occursAt (chars "1px solid rgba(0,0,0,0.5)") (chars "#") a ∧
          ∀ j < a, ¬ occursAt (chars "1px solid rgba(0,0,0,0.5)") (chars "#") j) ∧
      (includesSub (chars "1px solid rgba(0,0,0,0.5)") (chars "#") = false →
        occursAt (chars "1px solid rgba(0,0,0,0.5)") (chars "rgb") a ∧
          ∀ j < a, ¬ occursAt (chars "1px solid rgba(0,0,0,0.5)") (chars "rgb") j) ∧
      ((∃ b, a ≤ b ∧ occursAt (chars "1px solid rgba(0,0,0,0.5)") (chars ")") b) →
        ∃ c, a ≤ c ∧ occursAt (chars "1px solid rgba(0,0,0,0.5)") (chars ")") c ∧
          (∀ j, a ≤ j → j < c →
            ¬ occursAt (chars "1px solid rgba(0,0,0,0.5)") (chars ")") j) ∧
          (extractSpan (chars "1px solid rgba(0,0,0,0.5)")).2.2 = (c : Int) + 1 ∧
          (extractSpan (chars "1px solid rgba(0,0,0,0.5)")).1 =
            ((chars "1px solid rgba(0,0,0,0.5)").take (c + 1)).drop a)) :=
  ⟨by decide, C3_anchor_amended (chars "1px solid rgba(0,0,0,0.5)") (by decide)⟩

/-- C8: for a visited node whose key name is `color` and whose literal value
equals some registry value, the visitor reports the diagnostic
`Use token '<tokenName>' instead of hard-coded color '<literal>'.` built from the
matched token and the literal; for a node whose key name is not `color` or whose
value matches no registry value, nothing is reported.  The registry hypothesis —
every key starts with `--`, as every key `tokenColors` ever receives does — makes
the JS truthiness test on the found key equivalent to its mere existence. -/
theorem C8_report_on_match (r : Registry) (n : PNode)
    (hr : ∀ e ∈ r, (chars "--").isPrefixOf e.1 = true) :
    (n.keyName = chars "color" → (∃ e ∈ r, e.2 = n.litValue) →
      ∃ tok, getToken r n.litValue = some tok ∧
        visitProperty r n = some (mkMessage tok n.litValue)) ∧
    ((n.keyName ≠ chars "color" ∨ ∀ e ∈ r, e.2 ≠ n.litValue) →
      visitProperty r n = none) := by
  constructor
  · intro hkey hex
    obtain ⟨e0, he0, hev⟩ := hex
    have hsome : (r.find? (fun x => decide (x.2 = n.litValue))).isSome :=
      List.find?_isSome.mpr ⟨e0, he0, by simpa using hev⟩
    obtain ⟨e1, he1⟩ := Option.isSome_iff_exists.mp hsome
    have hg : getToken r n.litValue = some e1.1 := by
      rw [getToken, he1]
      rfl
    have hpre := hr e1 (List.mem_of_find?_eq_some he1)
    have hne : ¬ (e1.1 = []) := by
      intro hcontr
      rw [hcontr] at hpre
      exact absurd hpre (by decide)
    refine ⟨e1.1, hg, ?_⟩
    unfold visitProperty
    rw [if_pos hkey, hg]
    simp [hne]
  · intro hor
    rcases hor with hkey | hall
    · unfold visitProperty
      rw [if_neg hkey]
    · have hnone : r.find? (fun x => decide (x.2 = n.litValue)) = none :=
        List.find?_eq_none.mpr (fun x hx => by simpa using hall x hx)
      have hg : getToken r n.litValue = none := by
        rw [getToken, hnone]
        rfl
      unfold visitProperty
      rw [hg]
      simp

/-- Witness for C8: on the registry `{--a: #111}` and the node
`color: "#111"`. -/
theorem C8_witness :
    (∀ e ∈ ([(chars "--a", chars "#111")] : Registry),
        (chars "--").isPrefixOf e.1 = true) ∧
    (((⟨chars "color", chars "#111"⟩ : PNode).keyName = chars "color" →
      (∃ e ∈ ([(chars "--a", chars "#111")] : Registry), e.2 = chars "#111") →
      ∃ tok, getToken [(chars "--a", chars "#111")] (chars "#111") = some tok ∧
        visitProperty [(chars "--a", chars "#111")] ⟨chars "color", chars "#111"⟩
          = some (mkMessage tok (chars "#111"))) ∧
    (((⟨chars "color", chars "#111"⟩ : PNode).keyName ≠ chars "color" ∨
        ∀ e ∈ ([(chars "--a", chars "#111")] : Registry), e.2 ≠ chars "#111") →
      visitProperty [(chars "--a", chars "#111")] ⟨chars "color", chars "#111"⟩
        = none)) :=
  ⟨by decide,
    C8_report_on_match [(chars "--a", chars "#111")]
      ⟨chars "color", chars "#111"⟩ (by decide)⟩
